import Mathlib

/- Shallow embedding of the waves-lease-canceller command line tool
   (canceller.go).  External collaborators — the node REST client, the
   crypto library, JSON marshalling and the wall clock — are modelled as
   an explicit environment of query results and pure functions; the
   control flow of run, track, getActiveLeasings, getExtraFee and
   parseSK is translated from the source.  Go machine integers are Nat
   with explicit reduction modulo 2 ^ 64 at every uint64 addition. -/

/-- Errors surfaced by node interactions.  canceller.go distinguishes
only context.Canceled (via errors.Is) from every other error, so the
model keeps exactly those two classes. -/
inductive NetErr
  | canceled
  | transport
  deriving DecidableEq, Repr

/-- The three sentinel errors returned by run (canceller.go lines
30-32): errInvalidParameters, errUserTermination, errFailure.  main
maps them to exit codes 2, 130 and 70. -/
inductive RunError
  | invalidParameters
  | userTermination
  | failure
  deriving DecidableEq, Repr

/-- Final observable state of one execution of run.  ok models a nil
error return; err models one of the sentinel errors; polling models an
execution still inside the unbounded track loop at the end of the
supplied observation window; panicked models a nil-pointer dereference
inside track (rsp.StatusCode read with rsp absent). -/
inductive RunOutcome
  | ok
  | err (e : RunError)
  | polling
  | panicked
  deriving DecidableEq, Repr

/-- Which "[ERROR] ..." log line of run fired before the error return;
one constructor per log.Printf ERROR site in canceller.go. -/
inductive Stage
  | connect
  | scheme
  | parseKey
  | parsePK
  | parseAddr
  | leases
  | extraFee
  | sign
  | marshal
  | broadcast
  deriving DecidableEq, Repr

/-- One active leasing transaction as returned by the node:
cl.Leasing.Active yields entries carrying an ID and an Amount
(canceller.go lines 234-246). -/
structure Lease where
  id : Nat
  amount : Nat
  deriving DecidableEq, Repr

/-- The unsigned lease cancel transaction built by
proto.NewUnsignedLeaseCancelWithProofs(2, scheme, pk, lease, fee,
timestamp()) at canceller.go line 168. -/
structure UnsignedTx where
  version : Nat
  scheme : Nat
  senderPK : Nat
  leaseID : Nat
  fee : Nat
  timestamp : Nat
  deriving DecidableEq, Repr

/-- The transaction after cancel.Sign(scheme, sk): the unsigned body, a
proof produced by the signing primitive and the derived transaction
identifier. -/
structure SignedTx where
  tx : UnsignedTx
  proof : Nat
  id : Nat
  deriving DecidableEq, Repr

/-- One iteration of cl.Transactions.Info inside track (canceller.go
line 214): the error value and the HTTP response.  rsp = none models a
nil *Response pointer; some c models a response with StatusCode c. -/
structure Poll where
  err : Option NetErr
  rsp : Option Nat
  deriving DecidableEq, Repr

/-- Result of one track loop iteration. -/
inductive TrackOutcome
  | success
  | canceled
  | panic
  deriving DecidableEq, Repr

/-- Observable operations performed by run, in program order: the four
node queries of the prologue, the key derivation (parseSK), and the
per-lease emit / broadcast / track operations of the loop. -/
inductive Event
  | heightQuery
  | lastBlockQuery
  | keyDerivation
  | leasesQuery (addr : Nat)
  | extraFeeQuery (addr : Nat)
  | emitJSON (stx : SignedTx)
  | broadcastCall (stx : SignedTx)
  | trackCall (id : Nat)
  deriving DecidableEq, Repr

/-- Environment of external collaborators: node query results and the
pure library primitives (base58 decoding, key/address derivation,
signing, id hashing, JSON marshalling success, wall clock).  Keys,
addresses and digests are abstracted to Nat.  broadcastResult,
trackPolls, marshalOk and timestampAt are indexed by the loop
iteration. -/
structure Env where
  urlOk : Bool
  heightResult : Except NetErr Unit
  lastBlockGenBytes : Except NetErr (List Nat)
  decodeSK : String → Option Nat
  genPK : Nat → Nat
  addrFromPK : Nat → Nat → Option Nat
  decodePK : String → Option Nat
  signResult : Nat → Nat → UnsignedTx → Option Nat
  txIdOf : UnsignedTx → Nat
  leasesResult : Except NetErr (List Lease)
  extraFeeResult : Except NetErr (Nat × Nat)
  marshalOk : Nat → Bool
  broadcastResult : Nat → Except NetErr Unit
  trackPolls : Nat → List Poll
  timestampAt : Nat → Nat

/-- The command line flags of run (canceller.go lines 65-71). -/
structure Params where
  nodeURL : String
  accountSK : String
  accountPK : String
  dryRun : Bool
  showHelp : Bool
  showVersion : Bool
  deriving DecidableEq, Repr

/-- Full observable result of run: the event trace, the signed
transactions in construction order, the returned error (if any) and the
ERROR-log site of the failure (if any). -/
structure RunResult where
  events : List Event
  txs : List SignedTx
  outcome : RunOutcome
  failedStage : Option Stage
  deriving DecidableEq, Repr

deriving instance DecidableEq for Except

/-- 2 ^ 64, the modulus of Go uint64 arithmetic. -/
def U64 : Nat := 2 ^ 64

/-- Go uint64 addition: wraps modulo 2 ^ 64. -/
def uint64Add (a b : Nat) : Nat := (a + b) % U64

/-- standardFee uint64 = 100000 (canceller.go line 24). -/
def standardFee : Nat := 100000

/-- time.Sleep(time.Second) at canceller.go line 221: one second. -/
def sleepSeconds : Nat := 1

/-- Counts maximal nonempty whitespace-separated runs, scanning the
characters left to right; the inWord flag says whether the previous
character was inside a field. -/
def fieldsAux : List Char → Bool → Nat
  | [], _ => 0
  | c :: cs, inWord =>
    if c.isWhitespace then fieldsAux cs false
    else if inWord then fieldsAux cs true
    else fieldsAux cs true + 1

/-- len(strings.Fields(s)) from the flag validation at canceller.go
lines 81-88. -/
def fieldsCount (s : String) : Nat := fieldsAux s.toList false

/-- track (canceller.go lines 211-223) evaluated against a window of
poll results.  Each iteration: if errors.Is(err, context.Canceled)
return the error; otherwise read rsp.StatusCode (a nil dereference when
the response is absent); return nil on http.StatusOK; otherwise sleep
one second and loop.  none means the window ended with the loop still
running. -/
def track : List Poll → Option TrackOutcome
  | [] => none
  | p :: ps =>
    if p.err = some NetErr.canceled then some TrackOutcome.canceled
    else
      match p.rsp with
      | none => some TrackOutcome.panic
      | some code => if code = 200 then some TrackOutcome.success else track ps

/-- Durations of the time.Sleep calls performed by track on the given
poll window, in order. -/
def trackSleeps : List Poll → List Nat
  | [] => []
  | p :: ps =>
    if p.err = some NetErr.canceled then []
    else
      match p.rsp with
      | none => []
      | some code => if code = 200 then [] else sleepSeconds :: trackSleeps ps

/-- The loop body of getActiveLeasings (canceller.go lines 239-244):
walks the node's list in order, collecting each ID and accumulating the
uint64 amount. -/
def collectLeases : List Lease → Nat → List Nat × Nat
  | [], amount => ([], amount)
  | t :: ts, amount =>
    let r := collectLeases ts (uint64Add amount t.amount)
    (t.id :: r.1, r.2)

/-- getActiveLeasings (canceller.go lines 234-246) applied to the
result of cl.Leasing.Active: propagates the transport error, otherwise
returns the IDs in node order with the accumulated amount. -/
def getActiveLeasings (res : Except NetErr (List Lease)) : Except NetErr (List Nat × Nat) :=
  match res with
  | Except.error e => Except.error e
  | Except.ok txs => Except.ok (collectLeases txs 0)

/-- getExtraFee (canceller.go lines 248-262) applied to the result of
cl.Do on the scriptInfo request: propagates the request error; a
non-200 status becomes errors.New("failed to get extra fee"), a plain
(non-canceled) error. -/
def getExtraFee (res : Except NetErr (Nat × Nat)) : Except NetErr Nat :=
  match res with
  | Except.error e => Except.error e
  | Except.ok (status, extra) =>
    if status = 200 then Except.ok extra else Except.error NetErr.transport

/-- parseSK (canceller.go lines 305-316): decode the base58 secret key,
derive the public key, derive the address from it and the scheme.
Either failure point surfaces as the single parseSK error. -/
def parseSK (env : Env) (scheme : Nat) (s : String) : Option (Nat × Nat × Nat) :=
  match env.decodeSK s with
  | none => none
  | some sk =>
    let pk := env.genPK sk
    match env.addrFromPK scheme pk with
    | none => none
    | some address => some (sk, pk, address)

/-- Steps 3 of run (canceller.go lines 121-137): parseSK, then, when a
non-empty accountPK flag was given, decode the override public key and
re-derive the address from it; the secret key is kept unchanged.  The
error value records which ERROR log line fired. -/
def resolveIdentity (env : Env) (scheme : Nat) (skStr pkStr : String) :
    Except Stage (Nat × Nat × Nat) :=
  match parseSK env scheme skStr with
  | none => Except.error Stage.parseKey
  | some (sk, pk, addr) =>
    if pkStr = "" then Except.ok (sk, pk, addr)
    else
      match env.decodePK pkStr with
      | none => Except.error Stage.parsePK
      | some pk2 =>
        match env.addrFromPK scheme pk2 with
        | none => Except.error Stage.parseAddr
        | some addr2 => Except.ok (sk, pk2, addr2)

/-- The per-lease loop of run (canceller.go lines 167-200).  i is the
Go loop index; for each lease id the unsigned cancel transaction is
built with version 2, the run-wide scheme, public key and fee, and the
current timestamp; it is then signed, and either marshalled to JSON
(dry run) or broadcast and tracked.  txs collects the successfully
signed transactions in order. -/
def cancelLoop (env : Env) (dryRun : Bool) (scheme sk pk fee : Nat) :
    Nat → List Nat → RunResult
  | _, [] => ⟨[], [], RunOutcome.ok, none⟩
  | i, lease :: rest =>
    let tx : UnsignedTx :=
      ⟨2, scheme, pk, lease, fee, env.timestampAt i⟩
    match env.signResult scheme sk tx with
    | none => ⟨[], [], RunOutcome.err RunError.failure, some Stage.sign⟩
    | some pr =>
      let stx : SignedTx := ⟨tx, pr, env.txIdOf tx⟩
      if dryRun then
        if env.marshalOk i then
          let r := cancelLoop env dryRun scheme sk pk fee (i + 1) rest
          ⟨Event.emitJSON stx :: r.events, stx :: r.txs, r.outcome, r.failedStage⟩
        else ⟨[], [stx], RunOutcome.err RunError.failure, some Stage.marshal⟩
      else
        match env.broadcastResult i with
        | Except.error NetErr.canceled =>
          ⟨[Event.broadcastCall stx], [stx], RunOutcome.err RunError.userTermination, none⟩
        | Except.error NetErr.transport =>
          ⟨[Event.broadcastCall stx], [stx], RunOutcome.err RunError.failure, some Stage.broadcast⟩
        | Except.ok _ =>
          match track (env.trackPolls i) with
          | none =>
            ⟨[Event.broadcastCall stx, Event.trackCall stx.id], [stx], RunOutcome.polling, none⟩
          | some TrackOutcome.canceled =>
            ⟨[Event.broadcastCall stx, Event.trackCall stx.id], [stx],
              RunOutcome.err RunError.userTermination, none⟩
          | some TrackOutcome.panic =>
            ⟨[Event.broadcastCall stx, Event.trackCall stx.id], [stx], RunOutcome.panicked, none⟩
          | some TrackOutcome.success =>
            let r := cancelLoop env dryRun scheme sk pk fee (i + 1) rest
            ⟨Event.broadcastCall stx :: Event.trackCall stx.id :: r.events,
              stx :: r.txs, r.outcome, r.failedStage⟩

/-- run (canceller.go lines 56-204).  Help/version short-circuit, flag
validation, then: 1. nodeClient — URL parsing (urlOk models lines
264-284) and the Blocks.Height connectivity probe; 2. getScheme — the
last block's generator address bytes, scheme byte at index 1 (line
297); 3. parseSK and the optional public key override; 4.
getActiveLeasings; then getExtraFee, fee := standardFee + extra (uint64
addition), and the cancel loop over the lease ids. -/
def run (p : Params) (env : Env) : RunResult :=
  if p.showHelp then ⟨[], [], RunOutcome.ok, none⟩
  else if p.showVersion then ⟨[], [], RunOutcome.ok, none⟩
  else if p.nodeURL = "" ∨ 1 < fieldsCount p.nodeURL then
    ⟨[], [], RunOutcome.err RunError.invalidParameters, none⟩
  else if p.accountSK = "" ∨ 1 < fieldsCount p.accountSK then
    ⟨[], [], RunOutcome.err RunError.invalidParameters, none⟩
  else if env.urlOk = false then ⟨[], [], RunOutcome.err RunError.failure, some Stage.connect⟩
  else
    match env.heightResult with
    | Except.error NetErr.canceled =>
      ⟨[Event.heightQuery], [], RunOutcome.err RunError.userTermination, none⟩
    | Except.error NetErr.transport =>
      ⟨[Event.heightQuery], [], RunOutcome.err RunError.failure, some Stage.connect⟩
    | Except.ok _ =>
      match env.lastBlockGenBytes with
      | Except.error NetErr.canceled =>
        ⟨[Event.heightQuery, Event.lastBlockQuery], [],
          RunOutcome.err RunError.userTermination, none⟩
      | Except.error NetErr.transport =>
        ⟨[Event.heightQuery, Event.lastBlockQuery], [],
          RunOutcome.err RunError.failure, some Stage.scheme⟩
      | Except.ok bs =>
        let scheme := bs.getD 1 0
        match resolveIdentity env scheme p.accountSK p.accountPK with
        | Except.error st =>
          ⟨[Event.heightQuery, Event.lastBlockQuery, Event.keyDerivation], [],
            RunOutcome.err RunError.failure, some st⟩
        | Except.ok (sk, pk, addr) =>
          match getActiveLeasings env.leasesResult with
          | Except.error NetErr.canceled =>
            ⟨[Event.heightQuery, Event.lastBlockQuery, Event.keyDerivation,
              Event.leasesQuery addr], [], RunOutcome.err RunError.userTermination, none⟩
          | Except.error NetErr.transport =>
            ⟨[Event.heightQuery, Event.lastBlockQuery, Event.keyDerivation,
              Event.leasesQuery addr], [], RunOutcome.err RunError.failure, some Stage.leases⟩
          | Except.ok (ids, _total) =>
            match getExtraFee env.extraFeeResult with
            | Except.error NetErr.canceled =>
              ⟨[Event.heightQuery, Event.lastBlockQuery, Event.keyDerivation,
                Event.leasesQuery addr, Event.extraFeeQuery addr], [],
                RunOutcome.err RunError.userTermination, none⟩
            | Except.error NetErr.transport =>
              ⟨[Event.heightQuery, Event.lastBlockQuery, Event.keyDerivation,
                Event.leasesQuery addr, Event.extraFeeQuery addr], [],
                RunOutcome.err RunError.failure, some Stage.extraFee⟩
            | Except.ok extra =>
              let fee := uint64Add standardFee extra
              let r := cancelLoop env p.dryRun scheme sk pk fee 0 ids
              ⟨[Event.heightQuery, Event.lastBlockQuery, Event.keyDerivation,
                Event.leasesQuery addr, Event.extraFeeQuery addr] ++ r.events,
                r.txs, r.outcome, r.failedStage⟩

/-- The operations of the pipeline that touch the network or wait, one
constructor per call site in canceller.go. -/
inductive NetOp
  | heightProbe
  | lastBlockFetch
  | leasesFetch
  | scriptInfoFetch
  | broadcastSend
  | infoFetch
  | pollSleep
  deriving DecidableEq, Repr

/-- Whether the call site threads the cancellation context.  From the
source: cl.Blocks.Height(ctx), cl.Blocks.Last(ctx),
cl.Leasing.Active(ctx, addr), cl.Do(ctx, req, extraFee),
cl.Transactions.Broadcast(ctx, tx) and cl.Transactions.Info(ctx, id)
all receive ctx; time.Sleep(time.Second) at line 221 takes no context
at all. -/
def takesContext : NetOp → Bool
  | NetOp.pollSleep => false
  | _ => true

/-- A poll the track loop retries on: not canceled, response present,
status not 200. -/
def retryPoll (p : Poll) : Prop :=
  p.err ≠ some NetErr.canceled ∧ p.rsp ≠ none ∧ p.rsp ≠ some 200

/-- A poll on which track returns nil: not canceled and HTTP 200. -/
def successPoll (p : Poll) : Prop :=
  p.err ≠ some NetErr.canceled ∧ p.rsp = some 200

instance : DecidablePred retryPoll := fun p => by
  unfold retryPoll; infer_instance

instance : DecidablePred successPoll := fun p => by
  unfold successPoll; infer_instance

/-- Events that contact the network for submission: the broadcast and
the confirmation poll. -/
def isSubmission : Event → Bool
  | Event.broadcastCall _ => true
  | Event.trackCall _ => true
  | _ => false

/-- Events that emit a transaction's JSON. -/
def isEmitEvent : Event → Bool
  | Event.emitJSON _ => true
  | _ => false

/-- A fully successful environment: two active leases, no extra fee,
every broadcast accepted, every confirmation poll answering 200 at
once.  The crypto primitives are concrete injective toy functions. -/
def envHappy : Env :=
  { urlOk := true
    heightResult := Except.ok ()
    lastBlockGenBytes := Except.ok [1, 87]
    decodeSK := fun _ => some 11
    genPK := fun k => k + 100
    addrFromPK := fun s k => some (1000 * s + k)
    decodePK := fun _ => some 55
    signResult := fun s k t => some (s + k + t.leaseID + t.timestamp)
    txIdOf := fun t => t.leaseID + 900
    leasesResult := Except.ok [⟨3, 500⟩, ⟨4, 700⟩]
    extraFeeResult := Except.ok (200, 0)
    marshalOk := fun _ => true
    broadcastResult := fun _ => Except.ok ()
    trackPolls := fun _ => [⟨none, some 200⟩]
    timestampAt := fun i => 1600 + i }

/-- Valid flags, live mode. -/
def pLive : Params := ⟨"n", "k", "", false, false, false⟩

/-- Valid flags, dry-run mode. -/
def pDry : Params := ⟨"n", "k", "", true, false, false⟩

/-- Valid flags, live mode, with a public key override supplied. -/
def pOverride : Params := ⟨"n", "k", "q", false, false, false⟩

/-- envHappy with a secret key that fails base58 decoding. -/
def envBadKey : Env := { envHappy with decodeSK := fun _ => none }

/-- envHappy with the connectivity probe failing on transport. -/
def envDown : Env := { envHappy with heightResult := Except.error NetErr.transport }

/-- envHappy with one lease and the extra-fee query returning the
largest uint64 surcharge. -/
def envOverflow : Env :=
  { envHappy with
    extraFeeResult := Except.ok (200, U64 - 1)
    leasesResult := Except.ok [⟨5, 10⟩] }

/-- track returns nil exactly when the poll window is a block of
retried polls followed by one poll whose response carries HTTP 200. -/
theorem track_success_iff (polls : List Poll) :
    track polls = some TrackOutcome.success ↔
      ∃ pre q rest, polls = pre ++ q :: rest ∧ (∀ x ∈ pre, retryPoll x) ∧ successPoll q := by
  induction polls with
  | nil =>
    constructor
    · intro h; simp [track] at h
    · rintro ⟨pre, q, rest, heq, -, -⟩
      cases pre <;> simp at heq
  | cons p ps ih =>
    by_cases hc : p.err = some NetErr.canceled
    · constructor
      · intro h; simp [track, hc] at h
      · rintro ⟨pre, q, rest, heq, hpre, hq⟩
        cases pre with
        | nil =>
          simp only [List.nil_append, List.cons.injEq] at heq
          exact absurd hc (heq.1 ▸ hq.1)
        | cons a pre2 =>
          simp only [List.cons_append, List.cons.injEq] at heq
          exact absurd hc (heq.1 ▸ (hpre a (by simp)).1)
    · cases hr : p.rsp with
      | none =>
        constructor
        · intro h; simp [track, hc, hr] at h
        · rintro ⟨pre, q, rest, heq, hpre, hq⟩
          cases pre with
          | nil =>
            simp only [List.nil_append, List.cons.injEq] at heq
            rw [← heq.1] at hq
            rw [hq.2] at hr
            cases hr
          | cons a pre2 =>
            simp only [List.cons_append, List.cons.injEq] at heq
            exact absurd hr (heq.1 ▸ (hpre a (by simp)).2.1)
      | some code =>
        by_cases h200 : code = 200
        · subst h200
          constructor
          · intro _
            exact ⟨[], p, ps, by simp, by simp, ⟨hc, hr⟩⟩
          · intro _
            simp [track, hc, hr]
        · have hstep : track (p :: ps) = track ps := by
            simp [track, hc, hr, h200]
          rw [hstep, ih]
          constructor
          · rintro ⟨pre, q, rest, heq, hpre, hq⟩
            refine ⟨p :: pre, q, rest, by simp [heq], ?_, hq⟩
            intro x hx
            rcases List.mem_cons.mp hx with h | h
            · subst h
              exact ⟨hc, by simp [hr], by simp [hr, h200]⟩
            · exact hpre x h
          · rintro ⟨pre, q, rest, heq, hpre, hq⟩
            cases pre with
            | nil =>
              simp only [List.nil_append, List.cons.injEq] at heq
              rw [← heq.1] at hq
              rw [hq.2] at hr
              simp at hr
              exact absurd hr.symm h200
            | cons a pre2 =>
              simp only [List.cons_append, List.cons.injEq] at heq
              exact ⟨pre2, q, rest, heq.2, fun x hx => hpre x (by simp [hx]), hq⟩

/-- On a window of polls that are all retried, track is still looping
at the end of the window: no bound on the number of attempts. -/
theorem track_all_retry (polls : List Poll) (h : ∀ x ∈ polls, retryPoll x) :
    track polls = none := by
  induction polls with
  | nil => rfl
  | cons p ps ih =>
    obtain ⟨hc, hr, h200⟩ := h p (by simp)
    cases hrs : p.rsp with
    | none => exact absurd hrs hr
    | some code =>
      have : code ≠ 200 := by
        intro hh; rw [hh] at hrs; exact h200 hrs
      simp [track, hc, hrs, this]
      exact ih fun x hx => h x (by simp [hx])

/-- Every sleep performed by track lasts exactly sleepSeconds. -/
theorem trackSleeps_const (polls : List Poll) : ∀ d ∈ trackSleeps polls, d = sleepSeconds := by
  induction polls with
  | nil => simp [trackSleeps]
  | cons p ps ih =>
    intro d hd
    by_cases hc : p.err = some NetErr.canceled
    · simp [trackSleeps, hc] at hd
    · cases hr : p.rsp with
      | none => simp [trackSleeps, hc, hr] at hd
      | some code =>
        by_cases h200 : code = 200
        · simp [trackSleeps, hc, hr, h200] at hd
        · simp [trackSleeps, hc, hr, h200] at hd
          rcases hd with hd | hd
          · exact hd
          · exact ih d hd

/-- When every non-canceled poll carries a response, track never
panics: its exits are success and cancellation only. -/
theorem track_no_panic (polls : List Poll)
    (h : ∀ x ∈ polls, x.err ≠ some NetErr.canceled → x.rsp ≠ none) :
    track polls ≠ some TrackOutcome.panic := by
  induction polls with
  | nil => simp [track]
  | cons p ps ih =>
    by_cases hc : p.err = some NetErr.canceled
    · simp [track, hc]
    · cases hr : p.rsp with
      | none => exact absurd hr (h p (by simp) hc)
      | some code =>
        by_cases h200 : code = 200
        · simp [track, hc, hr, h200]
        · simp [track, hc, hr, h200]
          exact ih fun x hx => h x (by simp [hx])

/-- C3: the confirmation poll queries the status repeatedly at a fixed
one-second interval with no upper bound on attempts; it terminates
successfully exactly when a status query returns HTTP success (a block
of retried polls followed by a 200 response), and, as long as every
non-canceled query carries a response, its only other exit is
cancellation — in particular a window of transport errors with non-200
responses never aborts the loop. -/
theorem track_polls_until_success_or_cancel (polls : List Poll) :
    (track polls = some TrackOutcome.success ↔
      ∃ pre q rest, polls = pre ++ q :: rest ∧ (∀ x ∈ pre, retryPoll x) ∧ successPoll q) ∧
    ((∀ x ∈ polls, retryPoll x) → track polls = none) ∧
    ((∀ x ∈ polls, x.err ≠ some NetErr.canceled → x.rsp ≠ none) →
      track polls = none ∨ track polls = some TrackOutcome.success ∨
        track polls = some TrackOutcome.canceled) ∧
    (∀ d ∈ trackSleeps polls, d = sleepSeconds) := by
  refine ⟨track_success_iff polls, track_all_retry polls, ?_, trackSleeps_const polls⟩
  intro h
  have hnp := track_no_panic polls h
  cases ho : track polls with
  | none => exact Or.inl rfl
  | some o =>
    cases o with
    | success => exact Or.inr (Or.inl rfl)
    | canceled => exact Or.inr (Or.inr rfl)
    | panic => exact absurd ho hnp

/-- Witness for C3 at a concrete poll window: a 503 retry followed by a
200 success confirms, and a pure-retry window is still looping. -/
theorem track_polls_until_success_or_cancel_witness :
    track [⟨none, some 503⟩, ⟨none, some 200⟩] = some TrackOutcome.success ∧
    track [⟨none, some 503⟩, ⟨none, some 503⟩] = none := by
  refine ⟨(track_polls_until_success_or_cancel [⟨none, some 503⟩, ⟨none, some 200⟩]).1.mpr
    ⟨[⟨none, some 503⟩], ⟨none, some 200⟩, [], rfl, by decide, by decide⟩, ?_⟩
  exact (track_polls_until_success_or_cancel
    [⟨none, some 503⟩, ⟨none, some 503⟩]).2.1 (by decide)

/-- C10: in an iteration whose Info call errors with anything other
than cancellation, track still reads the response status code: with the
response absent the read is a nil dereference (no guard exists in the
error branch); with a response present the loop retries on non-200 and
even returns success on 200 despite the error.  The loop is panic-free
exactly under the assumption that every non-canceled Info result
carries a response. -/
theorem track_error_branch_reads_response (ps polls : List Poll) :
    track (⟨some NetErr.transport, none⟩ :: ps) = some TrackOutcome.panic ∧
    track (⟨some NetErr.transport, some 404⟩ :: ps) = track ps ∧
    track (⟨some NetErr.transport, some 200⟩ :: ps) = some TrackOutcome.success ∧
    ((∀ x ∈ polls, x.err ≠ some NetErr.canceled → x.rsp ≠ none) →
      track polls ≠ some TrackOutcome.panic) := by
  refine ⟨by simp [track], by simp [track], by simp [track], track_no_panic polls⟩

/-- Witness for C10: a transport error with a nil response panics at
once, while a window whose polls all carry responses never panics. -/
theorem track_error_branch_reads_response_witness :
    track [⟨some NetErr.transport, none⟩] = some TrackOutcome.panic ∧
    track [⟨some NetErr.transport, some 404⟩, ⟨none, some 200⟩] ≠ some TrackOutcome.panic := by
  refine ⟨(track_error_branch_reads_response [] []).1, ?_⟩
  exact (track_error_branch_reads_response [] [⟨some NetErr.transport, some 404⟩, ⟨none, some 200⟩]).2.2.2
    (by decide)

/-- C5 counterexample: not every waiting operation of the pipeline
observes cancellation — the poll sleep takes no context, and a
one-second sleep separating a retry from a poll that reports
cancellation is performed in full rather than interrupted. -/
theorem poll_sleep_ignores_cancellation_counterexample :
    takesContext NetOp.pollSleep = false ∧
    trackSleeps [⟨none, some 503⟩, ⟨some NetErr.canceled, none⟩] = [sleepSeconds] ∧
    track [⟨none, some 503⟩, ⟨some NetErr.canceled, none⟩] = some TrackOutcome.canceled := by
  decide

/-- C5 amended: the six network request sites all thread the
cancellation context, so in-flight requests observe cancellation; the
poll sleep does not, so after any block of retried polls followed by a
canceled status query, every sleep of the block ran its full second and
cancellation is only acted on at the next request. -/
theorem cancellation_observed_at_requests_only (ps : List Poll) :
    (∀ op : NetOp, op ≠ NetOp.pollSleep → takesContext op = true) ∧
    takesContext NetOp.pollSleep = false ∧
    ((∀ x ∈ ps, retryPoll x) →
      track (ps ++ [⟨some NetErr.canceled, none⟩]) = some TrackOutcome.canceled ∧
      trackSleeps (ps ++ [⟨some NetErr.canceled, none⟩]) =
        List.replicate ps.length sleepSeconds) := by
  refine ⟨fun op hop => ?_, rfl, fun h => ?_⟩
  · cases op <;> first | rfl | exact absurd rfl hop
  · induction ps with
    | nil => exact ⟨rfl, rfl⟩
    | cons p ps2 ih =>
      obtain ⟨hc, hr, h200⟩ := h p (by simp)
      cases hrs : p.rsp with
      | none => exact absurd hrs hr
      | some code =>
        have hcode : code ≠ 200 := by
          intro hh; rw [hh] at hrs; exact h200 hrs
        have ih2 := ih fun x hx => h x (by simp [hx])
        constructor
        · simp only [List.cons_append, track, hc, if_neg hc, hrs, hcode, if_neg hcode]
          exact ih2.1
        · simp only [List.cons_append, trackSleeps, hc, if_neg hc, hrs, hcode, if_neg hcode,
            List.length_cons, List.replicate_succ]
          exact congrArg (sleepSeconds :: ·) ih2.2

/-- Witness for C5 amended: one retried poll, then cancellation — the
retry's sleep completes in full and the exit is the canceled error. -/
theorem cancellation_observed_at_requests_only_witness :
    track ([⟨none, some 404⟩] ++ [⟨some NetErr.canceled, none⟩]) = some TrackOutcome.canceled ∧
    trackSleeps ([⟨none, some 404⟩] ++ [⟨some NetErr.canceled, none⟩]) =
      List.replicate 1 sleepSeconds :=
  (cancellation_observed_at_requests_only [⟨none, some 404⟩]).2.2 (by decide)

/-- The id component of the getActiveLeasings loop preserves the
node's order: one id per lease, position for position. -/
theorem collectLeases_fst (lts : List Lease) : ∀ a, (collectLeases lts a).1 = lts.map Lease.id := by
  induction lts with
  | nil => intro a; rfl
  | cons t ts ih =>
    intro a
    simp [collectLeases, ih]

/-- The amount accumulator of the getActiveLeasings loop computes the
uint64-wrapped sum of the amounts. -/
theorem collectLeases_snd (lts : List Lease) :
    ∀ a, a < U64 → (collectLeases lts a).2 = (a + (lts.map Lease.amount).sum) % U64 := by
  induction lts with
  | nil =>
    intro a ha
    simp [collectLeases, Nat.mod_eq_of_lt ha]
  | cons t ts ih =>
    intro a ha
    have hlt : uint64Add a t.amount < U64 := by
      have : 0 < U64 := by norm_num [U64]
      exact Nat.mod_lt _ this
    simp only [collectLeases]
    rw [ih (uint64Add a t.amount) hlt]
    simp only [uint64Add, List.map_cons, List.sum_cons]
    rw [Nat.mod_add_mod]
    ring_nf

/-- C9 counterexample: with two leases of amounts 2^64 - 1 and 2, the
fetcher returns the ids in order but a total of 1 — the uint64
accumulation wrapped, so the total is not the sum of the amounts. -/
theorem leasings_sum_overflow_counterexample :
    getActiveLeasings (Except.ok [⟨7, U64 - 1⟩, ⟨9, 2⟩]) = Except.ok ([7, 9], 1) ∧
    (U64 - 1) + 2 ≠ 1 := by
  decide

/-- C9 amended: the fetcher returns the lease ids in exactly the
node's order together with the amounts' sum reduced modulo 2^64 (equal
to the plain sum whenever that sum fits in a uint64), and an empty node
result yields the empty sequence with total 0 and no error. -/
theorem leasings_order_and_wrapped_sum (lts : List Lease) :
    getActiveLeasings (Except.ok lts) =
      Except.ok (lts.map Lease.id, (lts.map Lease.amount).sum % U64) ∧
    ((lts.map Lease.amount).sum < U64 →
      getActiveLeasings (Except.ok lts) =
        Except.ok (lts.map Lease.id, (lts.map Lease.amount).sum)) ∧
    getActiveLeasings (Except.ok ([] : List Lease)) = Except.ok ([], 0) := by
  have hmain : getActiveLeasings (Except.ok lts) =
      Except.ok (lts.map Lease.id, (lts.map Lease.amount).sum % U64) := by
    simp only [getActiveLeasings]
    have h1 := collectLeases_fst lts 0
    have h2 := collectLeases_snd lts 0 (by norm_num [U64])
    rw [Nat.zero_add] at h2
    rw [show collectLeases lts 0 = ((collectLeases lts 0).1, (collectLeases lts 0).2) from rfl,
      h1, h2]
  refine ⟨hmain, fun hfit => ?_, rfl⟩
  rw [hmain, Nat.mod_eq_of_lt hfit]

/-- Witness for C9 amended: two small leases, ids in order, exact sum. -/
theorem leasings_order_and_wrapped_sum_witness :
    getActiveLeasings (Except.ok [⟨7, 5⟩, ⟨9, 6⟩]) = Except.ok ([7, 9], 11) :=
  (leasings_order_and_wrapped_sum [⟨7, 5⟩, ⟨9, 6⟩]).2.1 (by decide)

/-- C2 counterexample: in a dry run over one lease with the extra-fee
query returning 2^64 - 1, the transaction is stamped with fee 99999 —
the uint64 addition of the base fee and the surcharge wrapped, so the
stamped fee is not base fee plus surcharge. -/
theorem fee_overflow_counterexample :
    (run pDry envOverflow).txs.map (fun stx => stx.tx.fee) = [99999] ∧
    standardFee + (U64 - 1) ≠ 99999 := by
  decide

/-- Every transaction collected by the cancel loop was built with
version 2, the run-wide scheme, public key and fee, a lease id from the
input list, and was signed with the run's secret key. -/
theorem cancelLoop_txs_mem (env : Env) (dry : Bool) (scheme sk pk fee : Nat) :
    ∀ (i : Nat) (L : List Nat) (stx : SignedTx),
      stx ∈ (cancelLoop env dry scheme sk pk fee i L).txs →
      stx.tx.version = 2 ∧ stx.tx.scheme = scheme ∧ stx.tx.senderPK = pk ∧
        stx.tx.fee = fee ∧ env.signResult scheme sk stx.tx = some stx.proof ∧
        stx.tx.leaseID ∈ L := by
  intro i L
  induction L generalizing i with
  | nil => intro stx h; simp [cancelLoop] at h
  | cons lease rest ih =>
    intro stx h
    cases hsig : env.signResult scheme sk ⟨2, scheme, pk, lease, fee, env.timestampAt i⟩ with
    | none => simp [cancelLoop, hsig] at h
    | some pr =>
      have hhead : stx = (⟨⟨2, scheme, pk, lease, fee, env.timestampAt i⟩, pr,
          env.txIdOf ⟨2, scheme, pk, lease, fee, env.timestampAt i⟩⟩ : SignedTx) →
          stx.tx.version = 2 ∧ stx.tx.scheme = scheme ∧ stx.tx.senderPK = pk ∧
            stx.tx.fee = fee ∧ env.signResult scheme sk stx.tx = some stx.proof ∧
            stx.tx.leaseID ∈ lease :: rest := by
        intro he
        subst he
        exact ⟨rfl, rfl, rfl, rfl, hsig, by simp⟩
      have htail : stx ∈ (cancelLoop env dry scheme sk pk fee (i + 1) rest).txs →
          stx.tx.version = 2 ∧ stx.tx.scheme = scheme ∧ stx.tx.senderPK = pk ∧
            stx.tx.fee = fee ∧ env.signResult scheme sk stx.tx = some stx.proof ∧
            stx.tx.leaseID ∈ lease :: rest := by
        intro hm
        obtain ⟨h1, h2, h3, h4, h5, h6⟩ := ih (i + 1) stx hm
        exact ⟨h1, h2, h3, h4, h5, by simp [h6]⟩
      cases dry with
      | true =>
        cases hm : env.marshalOk i with
        | true =>
          simp only [cancelLoop, hsig, hm] at h
          simp at h
          rcases h with he | hm2
          · exact hhead he
          · exact htail hm2
        | false =>
          simp only [cancelLoop, hsig, hm] at h
          simp at h
          exact hhead h
      | false =>
        cases hb : env.broadcastResult i with
        | error e =>
          cases e with
          | canceled =>
            simp only [cancelLoop, hsig, hb] at h
            simp at h
            exact hhead h
          | transport =>
            simp only [cancelLoop, hsig, hb] at h
            simp at h
            exact hhead h
        | ok u =>
          cases ht : track (env.trackPolls i) with
          | none =>
            simp only [cancelLoop, hsig, hb, ht] at h
            simp at h
            exact hhead h
          | some o =>
            cases o with
            | success =>
              simp only [cancelLoop, hsig, hb, ht] at h
              simp at h
              rcases h with he | hm2
              · exact hhead he
              · exact htail hm2
            | canceled =>
              simp only [cancelLoop, hsig, hb, ht] at h
              simp at h
              exact hhead h
            | panic =>
              simp only [cancelLoop, hsig, hb, ht] at h
              simp at h
              exact hhead h

/-- When the cancel loop finishes with a nil error it has produced
exactly one signed transaction per lease id, position for position. -/
theorem cancelLoop_ok_get (env : Env) (dry : Bool) (scheme sk pk fee : Nat) :
    ∀ (i : Nat) (L : List Nat),
      (cancelLoop env dry scheme sk pk fee i L).outcome = RunOutcome.ok →
      (cancelLoop env dry scheme sk pk fee i L).txs.length = L.length ∧
      ∀ (j l : Nat), L[j]? = some l →
        ∃ stx, (cancelLoop env dry scheme sk pk fee i L).txs[j]? = some stx ∧
          stx.tx.leaseID = l := by
  intro i L
  induction L generalizing i with
  | nil =>
    intro _
    refine ⟨rfl, ?_⟩
    intro j l hj
    simp at hj
  | cons lease rest ih =>
    intro hout
    cases hsig : env.signResult scheme sk ⟨2, scheme, pk, lease, fee, env.timestampAt i⟩ with
    | none => simp [cancelLoop, hsig] at hout
    | some pr =>
      cases dry with
      | true =>
        cases hm : env.marshalOk i with
        | false => simp [cancelLoop, hsig, hm] at hout
        | true =>
          have heq : cancelLoop env true scheme sk pk fee i (lease :: rest) =
              ⟨Event.emitJSON ⟨⟨2, scheme, pk, lease, fee, env.timestampAt i⟩, pr,
                  env.txIdOf ⟨2, scheme, pk, lease, fee, env.timestampAt i⟩⟩ ::
                  (cancelLoop env true scheme sk pk fee (i + 1) rest).events,
                ⟨⟨2, scheme, pk, lease, fee, env.timestampAt i⟩, pr,
                  env.txIdOf ⟨2, scheme, pk, lease, fee, env.timestampAt i⟩⟩ ::
                  (cancelLoop env true scheme sk pk fee (i + 1) rest).txs,
                (cancelLoop env true scheme sk pk fee (i + 1) rest).outcome,
                (cancelLoop env true scheme sk pk fee (i + 1) rest).failedStage⟩ := by
            simp [cancelLoop, hsig, hm]
          rw [heq] at hout ⊢
          obtain ⟨hlen, hget⟩ := ih (i + 1) hout
          refine ⟨by simp [hlen], ?_⟩
          intro j l hj
          cases j with
          | zero =>
            simp at hj
            exact ⟨⟨⟨2, scheme, pk, lease, fee, env.timestampAt i⟩, pr,
              env.txIdOf ⟨2, scheme, pk, lease, fee, env.timestampAt i⟩⟩, by simp, hj⟩
          | succ j2 =>
            simp only [List.getElem?_cons_succ] at hj
            obtain ⟨stx2, hs1, hs2⟩ := hget j2 l hj
            exact ⟨stx2, by simpa using hs1, hs2⟩
      | false =>
        cases hb : env.broadcastResult i with
        | error e =>
          cases e with
          | canceled => simp [cancelLoop, hsig, hb] at hout
          | transport => simp [cancelLoop, hsig, hb] at hout
        | ok u =>
          cases ht : track (env.trackPolls i) with
          | none => simp [cancelLoop, hsig, hb, ht] at hout
          | some o =>
            cases o with
            | canceled => simp [cancelLoop, hsig, hb, ht] at hout
            | panic => simp [cancelLoop, hsig, hb, ht] at hout
            | success =>
              have heq : cancelLoop env false scheme sk pk fee i (lease :: rest) =
                  ⟨Event.broadcastCall ⟨⟨2, scheme, pk, lease, fee, env.timestampAt i⟩, pr,
                      env.txIdOf ⟨2, scheme, pk, lease, fee, env.timestampAt i⟩⟩ ::
                    Event.trackCall
                      (env.txIdOf ⟨2, scheme, pk, lease, fee, env.timestampAt i⟩) ::
                      (cancelLoop env false scheme sk pk fee (i + 1) rest).events,
                    ⟨⟨2, scheme, pk, lease, fee, env.timestampAt i⟩, pr,
                      env.txIdOf ⟨2, scheme, pk, lease, fee, env.timestampAt i⟩⟩ ::
                      (cancelLoop env false scheme sk pk fee (i + 1) rest).txs,
                    (cancelLoop env false scheme sk pk fee (i + 1) rest).outcome,
                    (cancelLoop env false scheme sk pk fee (i + 1) rest).failedStage⟩ := by
                simp [cancelLoop, hsig, hb, ht]
              rw [heq] at hout ⊢
              obtain ⟨hlen, hget⟩ := ih (i + 1) hout
              refine ⟨by simp [hlen], ?_⟩
              intro j l hj
              cases j with
              | zero =>
                simp at hj
                exact ⟨⟨⟨2, scheme, pk, lease, fee, env.timestampAt i⟩, pr,
                  env.txIdOf ⟨2, scheme, pk, lease, fee, env.timestampAt i⟩⟩, by simp, hj⟩
              | succ j2 =>
                simp only [List.getElem?_cons_succ] at hj
                obtain ⟨stx2, hs1, hs2⟩ := hget j2 l hj
                exact ⟨stx2, by simpa using hs1, hs2⟩

/-- Every event the cancel loop records is an emit, a broadcast or a
track call — never one of the prologue queries. -/
theorem cancelLoop_events_mem (env : Env) (dry : Bool) (scheme sk pk fee : Nat) :
    ∀ (i : Nat) (L : List Nat) (e : Event),
      e ∈ (cancelLoop env dry scheme sk pk fee i L).events →
      (∃ stx, e = Event.emitJSON stx) ∨ (∃ stx, e = Event.broadcastCall stx) ∨
        ∃ d, e = Event.trackCall d := by
  intro i L
  induction L generalizing i with
  | nil => intro e h; simp [cancelLoop] at h
  | cons lease rest ih =>
    intro e h
    cases hsig : env.signResult scheme sk ⟨2, scheme, pk, lease, fee, env.timestampAt i⟩ with
    | none => simp [cancelLoop, hsig] at h
    | some pr =>
      cases dry with
      | true =>
        cases hm : env.marshalOk i with
        | false => simp [cancelLoop, hsig, hm] at h
        | true =>
          simp only [cancelLoop, hsig, hm] at h
          simp at h
          rcases h with he | hm2
          · exact Or.inl ⟨_, he⟩
          · exact ih (i + 1) e hm2
      | false =>
        cases hb : env.broadcastResult i with
        | error e2 =>
          cases e2 with
          | canceled =>
            simp only [cancelLoop, hsig, hb] at h
            simp at h
            exact Or.inr (Or.inl ⟨_, h⟩)
          | transport =>
            simp only [cancelLoop, hsig, hb] at h
            simp at h
            exact Or.inr (Or.inl ⟨_, h⟩)
        | ok u =>
          cases ht : track (env.trackPolls i) with
          | none =>
            simp only [cancelLoop, hsig, hb, ht] at h
            simp at h
            rcases h with he | he
            · exact Or.inr (Or.inl ⟨_, he⟩)
            · exact Or.inr (Or.inr ⟨_, he⟩)
          | some o =>
            cases o with
            | canceled =>
              simp only [cancelLoop, hsig, hb, ht] at h
              simp at h
              rcases h with he | he
              · exact Or.inr (Or.inl ⟨_, he⟩)
              · exact Or.inr (Or.inr ⟨_, he⟩)
            | panic =>
              simp only [cancelLoop, hsig, hb, ht] at h
              simp at h
              rcases h with he | he
              · exact Or.inr (Or.inl ⟨_, he⟩)
              · exact Or.inr (Or.inr ⟨_, he⟩)
            | success =>
              simp only [cancelLoop, hsig, hb, ht] at h
              simp at h
              rcases h with he | he | hm2
              · exact Or.inr (Or.inl ⟨_, he⟩)
              · exact Or.inr (Or.inr ⟨_, he⟩)
              · exact ih (i + 1) e hm2

/-- In dry-run mode with JSON marshalling succeeding, the loop records
no broadcast or track event, and its emit events are exactly its signed
transactions in order. -/
theorem cancelLoop_dry_events (env : Env) (scheme sk pk fee : Nat)
    (hm : ∀ i, env.marshalOk i = true) :
    ∀ (i : Nat) (L : List Nat),
      (cancelLoop env true scheme sk pk fee i L).events.filter isSubmission = [] ∧
      (cancelLoop env true scheme sk pk fee i L).events.filter isEmitEvent =
        (cancelLoop env true scheme sk pk fee i L).txs.map Event.emitJSON := by
  intro i L
  induction L generalizing i with
  | nil => exact ⟨rfl, rfl⟩
  | cons lease rest ih =>
    cases hsig : env.signResult scheme sk ⟨2, scheme, pk, lease, fee, env.timestampAt i⟩ with
    | none => simp [cancelLoop, hsig]
    | some pr =>
      obtain ⟨ih1, ih2⟩ := ih (i + 1)
      simp only [cancelLoop, hsig, hm i]
      refine ⟨?_, ?_⟩
      · simpa [List.filter, isSubmission] using ih1
      · simpa [List.filter, isEmitEvent] using ih2

/-- On a run whose prologue succeeds — valid flags, reachable node,
scheme obtained, identity resolved, leases and extra fee fetched with
status 200 — run is the prologue queries followed by the cancel loop
over the lease ids, with fee standardFee + extra in uint64 arithmetic. -/
theorem run_reduce (p : Params) (env : Env) (bs : List Nat) (sk pk addr : Nat)
    (lts : List Lease) (s : Nat)
    (hHelp : p.showHelp = false) (hVer : p.showVersion = false)
    (hURL : ¬(p.nodeURL = "" ∨ 1 < fieldsCount p.nodeURL))
    (hSK : ¬(p.accountSK = "" ∨ 1 < fieldsCount p.accountSK))
    (hurl : env.urlOk = true)
    (hh : env.heightResult = Except.ok ())
    (hb : env.lastBlockGenBytes = Except.ok bs)
    (hid : resolveIdentity env (bs.getD 1 0) p.accountSK p.accountPK =
      Except.ok (sk, pk, addr))
    (hl : env.leasesResult = Except.ok lts)
    (hf : env.extraFeeResult = Except.ok (200, s)) :
    run p env =
      ⟨[Event.heightQuery, Event.lastBlockQuery, Event.keyDerivation,
        Event.leasesQuery addr, Event.extraFeeQuery addr] ++
          (cancelLoop env p.dryRun (bs.getD 1 0) sk pk (uint64Add standardFee s) 0
            (lts.map Lease.id)).events,
        (cancelLoop env p.dryRun (bs.getD 1 0) sk pk (uint64Add standardFee s) 0
          (lts.map Lease.id)).txs,
        (cancelLoop env p.dryRun (bs.getD 1 0) sk pk (uint64Add standardFee s) 0
          (lts.map Lease.id)).outcome,
        (cancelLoop env p.dryRun (bs.getD 1 0) sk pk (uint64Add standardFee s) 0
          (lts.map Lease.id)).failedStage⟩ := by
  have hgal : getActiveLeasings env.leasesResult =
      Except.ok (lts.map Lease.id, (collectLeases lts 0).2) := by
    rw [hl]
    simp only [getActiveLeasings]
    rw [show collectLeases lts 0 = ((collectLeases lts 0).1, (collectLeases lts 0).2) from rfl,
      collectLeases_fst]
  have hgef : getExtraFee env.extraFeeResult = Except.ok s := by
    rw [hf]; simp [getExtraFee]
  have hid2 := hid
  simp only [List.getD_eq_getElem?_getD] at hid2
  unfold run
  simp [hHelp, hVer, hURL, hSK, hurl, hh, hb, hgal, hgef, hid2]

/-- C1: on every run whose prologue succeeds and that finishes with a
nil error, exactly one cancellation transaction per active lease is
built and processed — the j-th transaction references the j-th lease id
in the order the fetcher returned them — and every transaction carries
the same fee (computed once as standardFee + surcharge before the loop)
and the same scheme byte. -/
theorem run_builds_one_cancel_per_lease_in_order (p : Params) (env : Env)
    (bs : List Nat) (sk pk addr : Nat) (lts : List Lease) (s : Nat)
    (hHelp : p.showHelp = false) (hVer : p.showVersion = false)
    (hURL : ¬(p.nodeURL = "" ∨ 1 < fieldsCount p.nodeURL))
    (hSK : ¬(p.accountSK = "" ∨ 1 < fieldsCount p.accountSK))
    (hurl : env.urlOk = true)
    (hh : env.heightResult = Except.ok ())
    (hb : env.lastBlockGenBytes = Except.ok bs)
    (hid : resolveIdentity env (bs.getD 1 0) p.accountSK p.accountPK =
      Except.ok (sk, pk, addr))
    (hl : env.leasesResult = Except.ok lts)
    (hf : env.extraFeeResult = Except.ok (200, s))
    (hok : (run p env).outcome = RunOutcome.ok) :
    (run p env).txs.length = lts.length ∧
    (∀ (j : Nat) (l : Lease), lts[j]? = some l →
      ∃ stx, (run p env).txs[j]? = some stx ∧ stx.tx.leaseID = l.id) ∧
    ∀ stx ∈ (run p env).txs,
      stx.tx.fee = uint64Add standardFee s ∧ stx.tx.scheme = bs.getD 1 0 ∧
        stx.tx.version = 2 := by
  have hred := run_reduce p env bs sk pk addr lts s hHelp hVer hURL hSK hurl hh hb hid hl hf
  rw [hred] at hok ⊢
  obtain ⟨hlen, hget⟩ := cancelLoop_ok_get env p.dryRun (bs.getD 1 0) sk pk
    (uint64Add standardFee s) 0 (lts.map Lease.id) hok
  refine ⟨by simpa using hlen, ?_, ?_⟩
  · intro j l hj
    have hj2 : (lts.map Lease.id)[j]? = some l.id := by
      simp [List.getElem?_map, hj]
    obtain ⟨stx, h1, h2⟩ := hget j l.id hj2
    exact ⟨stx, h1, h2⟩
  · intro stx hm
    have h := cancelLoop_txs_mem env p.dryRun (bs.getD 1 0) sk pk
      (uint64Add standardFee s) 0 (lts.map Lease.id) stx hm
    exact ⟨h.2.2.2.1, h.2.1, h.1⟩

/-- Witness for C1 on the concrete happy environment with two leases. -/
theorem run_builds_one_cancel_per_lease_in_order_witness :
    (run pLive envHappy).txs.length = 2 :=
  (run_builds_one_cancel_per_lease_in_order pLive envHappy [1, 87] 11 111 87111
    [⟨3, 500⟩, ⟨4, 700⟩] 0 rfl rfl (by decide) (by decide) rfl rfl rfl (by decide)
    rfl rfl rfl).1

/-- C2 amended: the fee stamped on every cancellation transaction is
(standardFee + surcharge) reduced modulo 2^64 — Go uint64 addition.  It
equals standardFee + surcharge exactly when that sum fits in a uint64,
and for surcharge 0 it is exactly the base fee. -/
theorem fee_is_base_plus_surcharge_mod64 (p : Params) (env : Env)
    (bs : List Nat) (sk pk addr : Nat) (lts : List Lease) (s : Nat)
    (hHelp : p.showHelp = false) (hVer : p.showVersion = false)
    (hURL : ¬(p.nodeURL = "" ∨ 1 < fieldsCount p.nodeURL))
    (hSK : ¬(p.accountSK = "" ∨ 1 < fieldsCount p.accountSK))
    (hurl : env.urlOk = true)
    (hh : env.heightResult = Except.ok ())
    (hb : env.lastBlockGenBytes = Except.ok bs)
    (hid : resolveIdentity env (bs.getD 1 0) p.accountSK p.accountPK =
      Except.ok (sk, pk, addr))
    (hl : env.leasesResult = Except.ok lts)
    (hf : env.extraFeeResult = Except.ok (200, s)) :
    (∀ stx ∈ (run p env).txs, stx.tx.fee = (standardFee + s) % U64) ∧
    (standardFee + s < U64 → ∀ stx ∈ (run p env).txs, stx.tx.fee = standardFee + s) ∧
    (s = 0 → ∀ stx ∈ (run p env).txs, stx.tx.fee = standardFee) := by
  have hred := run_reduce p env bs sk pk addr lts s hHelp hVer hURL hSK hurl hh hb hid hl hf
  have hmem : ∀ stx ∈ (run p env).txs, stx.tx.fee = uint64Add standardFee s := by
    rw [hred]
    intro stx hm
    exact (cancelLoop_txs_mem env p.dryRun (bs.getD 1 0) sk pk (uint64Add standardFee s) 0
      (lts.map Lease.id) stx hm).2.2.2.1
  refine ⟨fun stx hm => hmem stx hm, fun hfit stx hm => ?_, fun hs0 stx hm => ?_⟩
  · rw [hmem stx hm]
    simp [uint64Add, Nat.mod_eq_of_lt hfit]
  · subst hs0
    rw [hmem stx hm]
    simp only [uint64Add, Nat.add_zero]
    exact Nat.mod_eq_of_lt (by norm_num [standardFee, U64])

/-- Witness for C2 amended: with surcharge 0 the first transaction of
the happy run carries exactly the base fee. -/
theorem fee_is_base_plus_surcharge_mod64_witness :
    (⟨⟨2, 87, 111, 3, 100000, 1600⟩, 1701, 903⟩ : SignedTx).tx.fee = standardFee :=
  (fee_is_base_plus_surcharge_mod64 pLive envHappy [1, 87] 11 111 87111
      [⟨3, 500⟩, ⟨4, 700⟩] 0 rfl rfl (by decide) (by decide) rfl rfl rfl (by decide)
      rfl rfl).2.2 rfl
    ⟨⟨2, 87, 111, 3, 100000, 1600⟩, 1701, 903⟩ (by decide)

/-- C4: in dry-run mode (with the JSON marshaller succeeding) a run
performs no broadcast call and no confirmation-poll call whatever the
environment returns, and its emit events are exactly its signed
transactions, in order. -/
theorem dry_run_never_broadcasts (p : Params) (env : Env)
    (hdry : p.dryRun = true) (hm : ∀ i, env.marshalOk i = true) :
    (run p env).events.filter isSubmission = [] ∧
    (run p env).events.filter isEmitEvent = (run p env).txs.map Event.emitJSON := by
  have hsub : ∀ scheme sk pk fee L,
      (cancelLoop env true scheme sk pk fee 0 L).events.filter isSubmission = [] :=
    fun scheme sk pk fee L => (cancelLoop_dry_events env scheme sk pk fee hm 0 L).1
  have hsub2 : ∀ (scheme sk pk fee : Nat) (L : List Nat) (a : Event),
      a ∈ (cancelLoop env true scheme sk pk fee 0 L).events → isSubmission a = false := by
    intro scheme sk pk fee L a ha
    by_contra hcon
    have htrue : isSubmission a = true := by
      cases hcase : isSubmission a
      · exact absurd hcase hcon
      · rfl
    have hmemf : a ∈ (cancelLoop env true scheme sk pk fee 0 L).events.filter isSubmission :=
      List.mem_filter.mpr ⟨ha, htrue⟩
    rw [hsub scheme sk pk fee L] at hmemf
    simp at hmemf
  have hemit : ∀ scheme sk pk fee L,
      (cancelLoop env true scheme sk pk fee 0 L).events.filter isEmitEvent =
        (cancelLoop env true scheme sk pk fee 0 L).txs.map Event.emitJSON :=
    fun scheme sk pk fee L => (cancelLoop_dry_events env scheme sk pk fee hm 0 L).2
  unfold run
  rw [hdry]
  repeat' split
  all_goals try simp [hsub, hemit, isSubmission, isEmitEvent, List.filter_append]
  all_goals (split <;> try simp [hsub, hemit, isSubmission, isEmitEvent, List.filter_append])
  intro a ha
  exact hsub2 _ _ _ _ _ a ha

/-- Witness for C4: the dry run over the happy environment records no
submission event. -/
theorem dry_run_never_broadcasts_witness :
    (run pDry envHappy).events.filter isSubmission = [] :=
  (dry_run_never_broadcasts pDry envHappy rfl (fun _ => rfl)).1

/-- C6 counterexample: a run whose secret key fails to decode returns
exactly the same error value as a run whose connectivity probe fails —
the generic operation failure (errFailure, exit 70) — so the key-format
failure is not a distinct error outcome. -/
theorem invalid_key_not_distinct_counterexample :
    (run pLive envBadKey).outcome = RunOutcome.err RunError.failure ∧
    (run pLive envDown).outcome = RunOutcome.err RunError.failure ∧
    (run pLive envBadKey).outcome = (run pLive envDown).outcome := by
  decide

/-- C6 amended: when the supplied secret key fails base58 decoding the
run fails with the generic operation-failure error (errFailure, exit
70) — the same error value used for network and broadcast failures —
after the key-parse ERROR log, with no transaction built; there is no
distinct InvalidKeyFormat error value. -/
theorem invalid_key_yields_generic_failure (p : Params) (env : Env) (bs : List Nat)
    (hHelp : p.showHelp = false) (hVer : p.showVersion = false)
    (hURL : ¬(p.nodeURL = "" ∨ 1 < fieldsCount p.nodeURL))
    (hSK : ¬(p.accountSK = "" ∨ 1 < fieldsCount p.accountSK))
    (hurl : env.urlOk = true)
    (hh : env.heightResult = Except.ok ())
    (hb : env.lastBlockGenBytes = Except.ok bs)
    (hdec : env.decodeSK p.accountSK = none) :
    (run p env).outcome = RunOutcome.err RunError.failure ∧
    (run p env).failedStage = some Stage.parseKey ∧
    (run p env).txs = [] := by
  have hid : resolveIdentity env (bs.getD 1 0) p.accountSK p.accountPK =
      Except.error Stage.parseKey := by
    simp [resolveIdentity, parseSK, hdec]
  have hid2 := hid
  simp only [List.getD_eq_getElem?_getD] at hid2
  have hrun : run p env =
      ⟨[Event.heightQuery, Event.lastBlockQuery, Event.keyDerivation], [],
        RunOutcome.err RunError.failure, some Stage.parseKey⟩ := by
    unfold run
    simp [hHelp, hVer, hURL, hSK, hurl, hh, hb, hid2]
  rw [hrun]
  exact ⟨rfl, rfl, rfl⟩

/-- Witness for C6 amended on the concrete bad-key environment. -/
theorem invalid_key_yields_generic_failure_witness :
    (run pLive envBadKey).outcome = RunOutcome.err RunError.failure :=
  (invalid_key_yields_generic_failure pLive envBadKey [1, 87] rfl rfl (by decide)
    (by decide) rfl rfl rfl rfl).1

/-- C7: when the connectivity probe (the height query) fails on
transport, run terminates with the network-failure outcome (errFailure
after the connect ERROR log) and its whole trace is the single height
query — in particular key derivation is never reached. -/
theorem probe_failure_precedes_key_derivation (p : Params) (env : Env)
    (hHelp : p.showHelp = false) (hVer : p.showVersion = false)
    (hURL : ¬(p.nodeURL = "" ∨ 1 < fieldsCount p.nodeURL))
    (hSK : ¬(p.accountSK = "" ∨ 1 < fieldsCount p.accountSK))
    (hurl : env.urlOk = true)
    (hh : env.heightResult = Except.error NetErr.transport) :
    (run p env).events = [Event.heightQuery] ∧
    (run p env).outcome = RunOutcome.err RunError.failure ∧
    (run p env).failedStage = some Stage.connect ∧
    Event.keyDerivation ∉ (run p env).events := by
  have hrun : run p env =
      ⟨[Event.heightQuery], [], RunOutcome.err RunError.failure, some Stage.connect⟩ := by
    unfold run
    simp [hHelp, hVer, hURL, hSK, hurl, hh]
  rw [hrun]
  exact ⟨rfl, rfl, rfl, by simp⟩

/-- Witness for C7 on the concrete unreachable-node environment. -/
theorem probe_failure_precedes_key_derivation_witness :
    (run pLive envDown).events = [Event.heightQuery] :=
  (probe_failure_precedes_key_derivation pLive envDown rfl rfl (by decide) (by decide)
    rfl rfl).1

/-- C8: when a non-empty public key override is supplied and decodes,
the address used for the whole run — the one the lease query and the
extra-fee query are issued for — is the address derived from the
override public key and the active scheme (and no other address is ever
queried), every built transaction carries the override public key as
sender, while signing still uses the secret key decoded from the
account-sk flag. -/
theorem pk_override_determines_address (p : Params) (env : Env)
    (bs : List Nat) (sk addrD pkO addrO : Nat) (lts : List Lease) (s : Nat)
    (hHelp : p.showHelp = false) (hVer : p.showVersion = false)
    (hURL : ¬(p.nodeURL = "" ∨ 1 < fieldsCount p.nodeURL))
    (hSK : ¬(p.accountSK = "" ∨ 1 < fieldsCount p.accountSK))
    (hurl : env.urlOk = true)
    (hh : env.heightResult = Except.ok ())
    (hb : env.lastBlockGenBytes = Except.ok bs)
    (hpkne : ¬p.accountPK = "")
    (hdec : env.decodeSK p.accountSK = some sk)
    (hDa : env.addrFromPK (bs.getD 1 0) (env.genPK sk) = some addrD)
    (hdecO : env.decodePK p.accountPK = some pkO)
    (haddrO : env.addrFromPK (bs.getD 1 0) pkO = some addrO)
    (hl : env.leasesResult = Except.ok lts)
    (hf : env.extraFeeResult = Except.ok (200, s)) :
    Event.leasesQuery addrO ∈ (run p env).events ∧
    (∀ a, Event.leasesQuery a ∈ (run p env).events → a = addrO) ∧
    (∀ a, Event.extraFeeQuery a ∈ (run p env).events → a = addrO) ∧
    ∀ stx ∈ (run p env).txs,
      stx.tx.senderPK = pkO ∧
        env.signResult (bs.getD 1 0) sk stx.tx = some stx.proof := by
  have hid : resolveIdentity env (bs.getD 1 0) p.accountSK p.accountPK =
      Except.ok (sk, pkO, addrO) := by
    have hDa2 := hDa
    have haddrO2 := haddrO
    simp only [List.getD_eq_getElem?_getD] at hDa2 haddrO2
    simp [resolveIdentity, parseSK, hdec, hDa2, hpkne, hdecO, haddrO2]
  have hred := run_reduce p env bs sk pkO addrO lts s hHelp hVer hURL hSK hurl hh hb hid hl hf
  have hshape := cancelLoop_events_mem env p.dryRun (bs.getD 1 0) sk pkO
    (uint64Add standardFee s) 0 (lts.map Lease.id)
  refine ⟨?_, ?_, ?_, ?_⟩
  · rw [hred]; simp
  · intro a ha
    rw [hred] at ha
    simp only [List.cons_append, List.nil_append, List.mem_cons] at ha
    rcases ha with h | h | h | h | h | h
    · cases h
    · cases h
    · cases h
    · exact (Event.leasesQuery.injEq a addrO).mp h
    · cases h
    · rcases hshape (Event.leasesQuery a) h with ⟨stx, he⟩ | ⟨stx, he⟩ | ⟨d, he⟩ <;> cases he
  · intro a ha
    rw [hred] at ha
    simp only [List.cons_append, List.nil_append, List.mem_cons] at ha
    rcases ha with h | h | h | h | h | h
    · cases h
    · cases h
    · cases h
    · cases h
    · exact (Event.extraFeeQuery.injEq a addrO).mp h
    · rcases hshape (Event.extraFeeQuery a) h with ⟨stx, he⟩ | ⟨stx, he⟩ | ⟨d, he⟩ <;> cases he
  · intro stx hm
    rw [hred] at hm
    have h := cancelLoop_txs_mem env p.dryRun (bs.getD 1 0) sk pkO
      (uint64Add standardFee s) 0 (lts.map Lease.id) stx hm
    exact ⟨h.2.2.1, h.2.2.2.2.1⟩

/-- Witness for C8: with override public key 55 on scheme 87, the
queried address is 87055, derived from the override, not 87111 as
derived from the secret key. -/
theorem pk_override_determines_address_witness :
    Event.leasesQuery 87055 ∈ (run pOverride envHappy).events :=
  (pk_override_determines_address pOverride envHappy [1, 87] 11 87111 55 87055
    [⟨3, 500⟩, ⟨4, 700⟩] 0 rfl rfl (by decide) (by decide) rfl rfl rfl (by decide)
    rfl rfl rfl rfl rfl rfl).1
